import Mathlib

/-!
# Verification of the solid-model object-interception layer

Shallow embedding of the proxy-handler hierarchy of the `solid-model`
repository (`src/lib/model/reactive.ts`, `memo.ts`, `list.ts`, `base.ts`,
`src/lib/helper/array.ts`, `util.ts`) and proofs about its tracking,
notification and caching behaviour.

JavaScript objects are modelled as association lists of property
descriptors plus a prototype reference and an extensibility flag; the
`Reflect.*` built-ins are modelled from their ECMAScript default
semantics; the solid-js reactive engine is modelled only through the
interface the source consumes (ambient listener, cleanup registration,
batching that coalesces notifications of one pass).
-/

namespace SolidModel

/-- Property keys: string keys, numeric (array-index) keys, and the
internal symbols `Internal.SHAPE`, `Internal.PROTO`,
`Internal.IS_EXTENSIBLE` (from `helper/util.ts`) plus the solid-js
`$TRACK` symbol used by the array layer. -/
inductive Key : Type
  | str (s : String)
  | idx (n : Nat)
  | shape
  | proto
  | isExt
  | trackSym
deriving DecidableEq, Repr

/-- JavaScript values, as far as the handlers inspect them: primitives,
functions (identified by an id), the batch-wrapped version of a function
produced by `ListHandler.batch`, and object references. -/
inductive Val : Type
  | undef
  | nullv
  | bool (b : Bool)
  | num (n : Int)
  | str (s : String)
  | fn (id : Nat)
  | batchedFn (id : Nat)
  | obj (id : Nat)
deriving DecidableEq, Repr

/-- A property descriptor as the `defineProperty` trap receives it:
every attribute may be absent.  `get?`/`set?` hold `some none` for an
explicitly `undefined` accessor and `some (some i)` for function `i`,
mirroring that JavaScript allows `{ get: undefined }`. -/
structure Desc : Type where
  value? : Option Val := none
  writable? : Option Bool := none
  getf : Option (Option Nat) := none
  setf : Option (Option Nat) := none
  enumerable? : Option Bool := none
  configurable? : Option Bool := none
deriving DecidableEq, Repr

namespace Desc

/-- The descriptor mentions an accessor attribute (ES IsAccessorDescriptor). -/
def isAccessor (d : Desc) : Bool := d.getf.isSome || d.setf.isSome

/-- The descriptor mentions a data attribute (ES IsDataDescriptor). -/
def isData (d : Desc) : Bool := d.value?.isSome || d.writable?.isSome

/-- The getter as JavaScript reads `desc.get`: absent and explicitly
`undefined` both read as `undefined` (`none`). -/
def getJS (d : Desc) : Option Nat := d.getf.bind id

/-- The setter as JavaScript reads `desc.set`. -/
def setJS (d : Desc) : Option Nat := d.setf.bind id

/-- A complete data descriptor. -/
def data (v : Val) (w e c : Bool) : Desc :=
  { value? := some v, writable? := some w, enumerable? := some e,
    configurable? := some c }

/-- A complete accessor descriptor. -/
def accessor (g s : Option Nat) (e c : Bool) : Desc :=
  { getf := some g, setf := some s, enumerable? := some e,
    configurable? := some c }

end Desc

/-- Association-list lookup. -/
def alistFind? {κ α : Type} [DecidableEq κ] (l : List (κ × α)) (k : κ) :
    Option α :=
  match l with
  | [] => none
  | (k', a) :: rest => if k' = k then some a else alistFind? rest k

/-- Association-list update: replaces the binding in place, or appends a
new binding at the end (JavaScript property insertion order). -/
def alistSet {κ α : Type} [DecidableEq κ] (l : List (κ × α)) (k : κ)
    (a : α) : List (κ × α) :=
  match l with
  | [] => [(k, a)]
  | (k', a') :: rest =>
      if k' = k then (k, a) :: rest else (k', a') :: alistSet rest k a

/-- Association-list removal. -/
def alistRemove {κ α : Type} [DecidableEq κ] (l : List (κ × α)) (k : κ) :
    List (κ × α) :=
  match l with
  | [] => []
  | (k', a') :: rest =>
      if k' = k then rest else (k', a') :: alistRemove rest k

/-- The keys of an association list, in insertion order
(`Reflect.ownKeys`). -/
def alistKeys {κ α : Type} (l : List (κ × α)) : List κ := l.map Prod.fst

/-- A JavaScript object: own properties in insertion order, a prototype
reference and the extensibility flag. -/
structure Obj : Type where
  props : List (Key × Desc)
  protoId : Option Nat := none
  extensible : Bool := true
deriving DecidableEq, Repr

namespace Obj

/-- `Object.hasOwn(t, k)`. -/
def hasOwn (o : Obj) (k : Key) : Bool := (alistFind? o.props k).isSome

/-- `Reflect.getOwnPropertyDescriptor(t, k)` (complete descriptor or
`undefined`). -/
def getOwn (o : Obj) (k : Key) : Option Desc := alistFind? o.props k

end Obj

/-- `Reflect.deleteProperty`: fails only on an own non-configurable
property; deleting an absent key succeeds without any change. -/
def reflectDeleteProperty (o : Obj) (k : Key) : Option Obj :=
  match o.getOwn k with
  | none => some o
  | some d =>
      if d.configurable? = some true then
        some { o with props := alistRemove o.props k }
      else none

/-- One slot of the dependency `Store` (`helper/type.ts`): `excluded`
is the `null` sentinel ("opted out of reactivity"), `forcer c` is a live
reactive cell carrying its reference count of active trackers.  An
absent binding is the `undefined` case ("no listener yet"). -/
inductive CellSlot : Type
  | excluded
  | forcer (count : Nat)
deriving DecidableEq, Repr

/-- The dependency store of one facade: tracking key to cell slot. -/
abbrev Store : Type := List (Key × CellSlot)

/-- The memo cache of one facade (`Cache` in `helper/type.ts`): `none`
binding absent = not cached yet; `excludedC` = the `null` sentinel (not
memoizable); `memoOf g` = a live memo accessor for getter `g`. -/
inductive CacheSlot : Type
  | excludedC
  | memoOf (g : Nat)
deriving DecidableEq, Repr

/-- State threaded through the proxy traps: the backing object, the
dependency store, the ambient reactive context (is a computation
currently collecting dependencies, and which keys it has registered),
and the notifications raised so far in the current pass. -/
structure PState : Type where
  obj : Obj
  store : Store := []
  listening : Bool := false
  deps : List Key := []
  notes : List Key := []
deriving DecidableEq, Repr

namespace ReactiveHandler

/-- `ReactiveHandler.track` (reactive.ts): does nothing unless a
computation is listening; respects the `null` exclusion sentinel;
otherwise reuses or creates the forcer for `k`, registers the ambient
dependency (`forcer.track()`), and increments the forcer's reference
count (the paired `onCleanup` decrement is modelled by the cell
life-cycle system below).  Returns whether there was something to
track. -/
def track (st : PState) (k : Key) : PState × Bool :=
  if !st.listening then (st, false)
  else
    match alistFind? st.store k with
    | some .excluded => (st, false)
    | some (.forcer c) =>
        ({ st with store := alistSet st.store k (.forcer (c + 1)),
                   deps := k :: st.deps }, true)
    | none =>
        ({ st with store := alistSet st.store k (.forcer 1),
                   deps := k :: st.deps }, true)

/-- `ReactiveHandler.update` (reactive.ts): fires the cell of `k` when
one exists (`undefined` and the `null` sentinel both fall through the
`if (!temp) return false`), never creating one.  The fired notification
is appended to the pass. -/
def update (st : PState) (k : Key) : PState × Bool :=
  match alistFind? st.store k with
  | some (.forcer _) => ({ st with notes := st.notes ++ [k] }, true)
  | _ => (st, false)

/-- `ReactiveHandler.compare` (reactive.ts): the pluggable comparator,
defaulting to solid-js `equalFn`, i.e. reference/primitive equality. -/
def compare (next prev : Val) : Bool := next = prev

end ReactiveHandler

/-- The heap: plain raw objects reachable as prototypes, indexed by the
object ids that `Val.obj`/`Obj.protoId` reference. -/
abbrev Heap : Type := List Obj

/-- `Reflect.get(t, k, r)`: own data property, own accessor (getter run
with `this = r` through the abstract getter environment `gev`, or
`undefined` when only a setter exists), else the prototype chain.
`fuel` bounds the chain walk; `none` is a dangling reference or fuel
exhaustion. -/
def reflectGet (gev : Nat → Val → Val) (h : Heap) :
    Nat → Obj → Key → Val → Option Val
  | 0, _, _, _ => none
  | n + 1, o, k, r =>
      match o.getOwn k with
      | some d =>
          if d.isAccessor then
            match d.getJS with
            | some g => some (gev g r)
            | none => some .undef
          else some (d.value?.getD .undef)
      | none =>
          match o.protoId with
          | none => some .undef
          | some pid =>
              match h.get? pid with
              | some po => reflectGet gev h n po k r
              | none => none

/-- The `get` trap of `ReactiveHandler` (reactive.ts): computes the
default result via `Reflect.get`, tracks `k`, and returns the default
result unmodified. -/
def ReactiveHandler.get (gev : Nat → Val → Val) (h : Heap) (fuel : Nat)
    (st : PState) (k : Key) (r : Val) : Option Val × PState :=
  let out := reflectGet gev h fuel st.obj k r
  let st' := (ReactiveHandler.track st k).1
  (out, st')

/-- `ListHandler.batch` (list.ts): wraps a function value so that its
body runs inside `batch`; the wrapper is cached per function, so the
same function id always produces the same wrapper. -/
def ListHandler.batchWrap (v : Val) : Val :=
  match v with
  | .fn id => .batchedFn id
  | _ => v

/-- The `get` trap of `ListHandler` (list.ts): the base result, except
that a function value is replaced by its batch-wrapping. -/
def ListHandler.get (gev : Nat → Val → Val) (h : Heap) (fuel : Nat)
    (st : PState) (k : Key) (r : Val) : Option Val × PState :=
  let (out, st') := ReactiveHandler.get gev h fuel st k r
  (out.map ListHandler.batchWrap, st')

/-- The `deleteProperty` trap of `ReactiveHandler` (reactive.ts):
records whether `k` was an own key, performs the default delete, and
only when the key was own fires the cell of `k` and of the structural
`SHAPE` key inside one batch. -/
def ReactiveHandler.deleteProperty (st : PState) (k : Key) :
    Bool × PState :=
  let own := st.obj.hasOwn k
  match reflectDeleteProperty st.obj k with
  | none => (false, st)
  | some o' =>
      let st' := { st with obj := o' }
      if !own then (true, st')
      else
        let st₁ := (ReactiveHandler.update st' k).1
        let st₂ := (ReactiveHandler.update st₁ Key.shape).1
        (true, st₂)

/-- The `deleteProperty` trap of `MemoHandler` (memo.ts): the base
behaviour, and additionally the memo-cache entry of `k` is evicted when
the key was own.  The cache is passed alongside the store state. -/
def MemoHandler.deleteProperty (st : PState)
    (cache : List (Key × CacheSlot)) (k : Key) :
    Bool × PState × List (Key × CacheSlot) :=
  let own := st.obj.hasOwn k
  let (ok, st') := ReactiveHandler.deleteProperty st k
  if !ok then (false, st, cache)
  else (true, st', if own then alistRemove cache k else cache)

namespace Desc

/-- Completing a descriptor for a previously absent key (ES
CreateDataProperty path of DefineOwnProperty): absent attributes get
their defaults. -/
def complete (next : Desc) : Desc :=
  if next.isAccessor then
    { getf := some next.getJS, setf := some next.setJS,
      enumerable? := some (next.enumerable?.getD false),
      configurable? := some (next.configurable?.getD false) }
  else
    { value? := some (next.value?.getD .undef),
      writable? := some (next.writable?.getD false),
      enumerable? := some (next.enumerable?.getD false),
      configurable? := some (next.configurable?.getD false) }

/-- Merging a defining descriptor into an existing complete one (ES
ValidateAndApplyPropertyDescriptor, apply part): on a kind change the
other kind's attributes reset to defaults, then the present attributes
of `next` overwrite. -/
def mergeInto (next prev : Desc) : Desc :=
  let base :=
    if (next.isAccessor && prev.isData) ||
       (next.isData && prev.isAccessor) then
      if next.isAccessor then
        { getf := some none, setf := some none,
          enumerable? := prev.enumerable?,
          configurable? := prev.configurable? }
      else
        { value? := some .undef, writable? := some false,
          enumerable? := prev.enumerable?,
          configurable? := prev.configurable? }
    else prev
  { value? := next.value? <|> base.value?,
    writable? := next.writable? <|> base.writable?,
    getf := next.getf <|> base.getf,
    setf := next.setf <|> base.setf,
    enumerable? := next.enumerable? <|> base.enumerable?,
    configurable? := next.configurable? <|> base.configurable? }

/-- Validity of redefining a non-configurable property (ES
ValidateAndApplyPropertyDescriptor, reject part). -/
def validNonConfigurable (next prev : Desc) : Bool :=
  !(next.configurable? = some true) &&
  !(next.enumerable?.isSome && next.enumerable? ≠ prev.enumerable?) &&
  !((next.isAccessor && prev.isData) || (next.isData && prev.isAccessor)) &&
  (if prev.isData then
    !(next.writable? = some true && prev.writable? = some false) &&
    !(prev.writable? = some false && next.value?.isSome &&
      next.value? ≠ prev.value?)
  else
    !(next.getf.isSome && next.getJS ≠ prev.getJS) &&
    !(next.setf.isSome && next.setJS ≠ prev.setJS))

end Desc

/-- `Reflect.defineProperty`: create (requires extensibility) or merge
(requires configurability or a valid non-configurable redefinition). -/
def reflectDefineProperty (o : Obj) (k : Key) (next : Desc) :
    Option Obj :=
  match o.getOwn k with
  | none =>
      if o.extensible then
        some { o with props := o.props ++ [(k, next.complete)] }
      else none
  | some prev =>
      if prev.configurable? = some true || next.validNonConfigurable prev
      then some { o with props := alistSet o.props k (next.mergeInto prev) }
      else none

/-- `compareDesc` (reactive.ts): runs over the attributes *present in
the new descriptor* (`for (const elm in next)`), comparing `value` with
the handler's comparator and every other attribute with `!==` (an
attribute absent from the previous descriptor reads as `undefined`).
Returns `true` when nothing differs. -/
def compareDesc (cmp : Val → Val → Bool) (next prev : Desc) : Bool :=
  (match next.value? with
   | some v => cmp v (prev.value?.getD .undef)
   | none => true) &&
  (match next.writable? with
   | some w => prev.writable? = some w
   | none => true) &&
  (match next.getf with
   | some g => prev.getJS = g
   | none => true) &&
  (match next.setf with
   | some s => prev.setJS = s
   | none => true) &&
  (match next.enumerable? with
   | some e => prev.enumerable? = some e
   | none => true) &&
  (match next.configurable? with
   | some c => prev.configurable? = some c
   | none => true)

/-- The `defineProperty` trap of `ReactiveHandler` (reactive.ts): reads
the previous descriptor, performs the default define, then in one
batch: a previously absent key fires `SHAPE` and `k`; an existing key
fires `k` unless `compareDesc` reports no change. -/
def ReactiveHandler.defineProperty (st : PState) (k : Key)
    (next : Desc) : Bool × PState :=
  let prev := st.obj.getOwn k
  match reflectDefineProperty st.obj k next with
  | none => (false, st)
  | some o' =>
      let st' := { st with obj := o' }
      match prev with
      | none =>
          let st₁ := (ReactiveHandler.update st' Key.shape).1
          let st₂ := (ReactiveHandler.update st₁ k).1
          (true, st₂)
      | some p =>
          if compareDesc ReactiveHandler.compare next p then (true, st')
          else (true, (ReactiveHandler.update st' k).1)

/-- `Reflect.setPrototypeOf`: fails (leaving the chain unchanged) on a
non-extensible object asked to change prototype. -/
def reflectSetPrototypeOf (o : Obj) (p : Option Nat) : Bool × Obj :=
  if o.protoId = p then (true, o)
  else if o.extensible then (true, { o with protoId := p })
  else (false, o)

/-- The `for (const k of Reflect.ownKeys(store))` loop of the
`setPrototypeOf` trap (reactive.ts): every store key that is not an own
key of the object is updated. -/
def ReactiveHandler.protoLoop : List Key → PState → PState
  | [], st => st
  | k :: ks, st =>
      ReactiveHandler.protoLoop ks
        (if !st.obj.hasOwn k then (ReactiveHandler.update st k).1 else st)

/-- The `setPrototypeOf` trap of `ReactiveHandler` (reactive.ts): a
prototype identical to the current one short-circuits with no
notification (unless `force`); otherwise the default mutation runs and,
in one batch, `PROTO`, `SHAPE`, and every store key that is not an own
key of the object are fired — the batch runs even when the default
mutation failed. -/
def ReactiveHandler.setPrototypeOf (st : PState) (p : Option Nat)
    (force : Bool := false) : Bool × PState :=
  if !force && st.obj.protoId = p then (true, st)
  else
    let (ok, o') := reflectSetPrototypeOf st.obj p
    let st' := { st with obj := o' }
    let st₁ := (ReactiveHandler.update st' Key.proto).1
    let st₂ := (ReactiveHandler.update st₁ Key.shape).1
    (ok, ReactiveHandler.protoLoop (alistKeys st.store) st₂)

/-- The `getOwnPropertyDescriptor` trap of `ReactiveHandler`
(reactive.ts): the default descriptor, and `k` is tracked. -/
def ReactiveHandler.getOwnPropertyDescriptor (st : PState) (k : Key) :
    Option Desc × PState :=
  let out := st.obj.getOwn k
  (out, (ReactiveHandler.track st k).1)

/-- The descriptor OrdinarySet works against: the own descriptor, else
the prototype chain's, else the default `{value: undefined, writable:
true, ...}` data descriptor at the end of the chain. -/
def chainDesc (h : Heap) : Nat → Obj → Key → Option Desc
  | 0, _, _ => none
  | n + 1, o, k =>
      match o.getOwn k with
      | some d => some d
      | none =>
          match o.protoId with
          | none => some (Desc.data .undef true true true)
          | some pid =>
              match h.get? pid with
              | some po => chainDesc h n po k
              | none => none

/-- ES OrdinarySet on the backing object with the facade as receiver:
an inherited or defaulted data descriptor leads back to the receiver,
whose `[[GetOwnProperty]]` and `[[DefineOwnProperty]]` are the facade's
traps (so the descriptor read tracks and the define notifies); an
accessor with a setter runs the raw setter, modelled by its effect
`sev` on the backing object. -/
def reflectSet (sev : Nat → Val → Obj → Obj) (h : Heap) (fuel : Nat)
    (st : PState) (k : Key) (v : Val) : Bool × PState :=
  match chainDesc h fuel st.obj k with
  | none => (false, st)
  | some ownDesc =>
      if ownDesc.isAccessor then
        match ownDesc.setJS with
        | none => (false, st)
        | some s => (true, { st with obj := sev s v st.obj })
      else if ownDesc.writable? = some false then (false, st)
      else
        let (exist, st₁) := ReactiveHandler.getOwnPropertyDescriptor st k
        match exist with
        | some e =>
            if e.isAccessor then (false, st₁)
            else if e.writable? = some false then (false, st₁)
            else ReactiveHandler.defineProperty st₁ k { value? := some v }
        | none =>
            ReactiveHandler.defineProperty st₁ k (Desc.data v true true true)

/-- The `set` trap of `ReactiveHandler` (reactive.ts): runs
`Reflect.set` under `untrack`, so the inner `getOwnPropertyDescriptor`
trap cannot register a dependency; the ambient listener is restored
afterwards. -/
def ReactiveHandler.set (sev : Nat → Val → Obj → Obj) (h : Heap)
    (fuel : Nat) (st : PState) (k : Key) (v : Val) : Bool × PState :=
  let inner := reflectSet sev h fuel { st with listening := false } k v
  (inner.1, { inner.2 with listening := st.listening })

/-- Whether the store holds a live cell (a forcer, not the `null`
sentinel and not an absent binding) for `k`. -/
def cellLive (store : Store) (k : Key) : Bool :=
  match alistFind? store k with
  | some (.forcer _) => true
  | _ => false

/-- The notifications `ReactiveHandler.update` delivers for `k`: the
cell of `k` when one is live, nothing otherwise. -/
def firedOf (store : Store) (k : Key) : List Key :=
  if cellLive store k then [k] else []

/-- The notifications delivered by updating each key of `ks` in turn. -/
def firedAll (store : Store) (ks : List Key) : List Key :=
  (ks.map (firedOf store)).flatten

/-- The `setPrototypeOf` trap of `MemoHandler` (memo.ts): same
identical-prototype short-circuit; otherwise delegates with
`force = true` and then evicts from the memo cache every store key that
is not an own key of the object. -/
def MemoHandler.setPrototypeOf (st : PState)
    (cache : List (Key × CacheSlot)) (p : Option Nat)
    (force : Bool := false) :
    Bool × PState × List (Key × CacheSlot) :=
  if !force && st.obj.protoId = p then (true, st, cache)
  else
    let (ok, st') := ReactiveHandler.setPrototypeOf st p true
    let cache' := (alistKeys st'.store).foldl
      (fun c k => if !st'.obj.hasOwn k then alistRemove c k else c) cache
    (ok, st', cache')

/-- The descriptor-difference criterion in the words of the
specification: the new (partial) descriptor differs from the previous
one in some attribute, or in value under the pluggable comparator —
attributes absent from the new descriptor assert nothing. -/
def descDiffersSpec (cmp : Val → Val → Bool) (next prev : Desc) : Bool :=
  (next.value?.isSome &&
    !cmp (next.value?.getD .undef) (prev.value?.getD .undef)) ||
  (next.writable?.isSome && next.writable? ≠ prev.writable?) ||
  (next.getf.isSome && next.getJS ≠ prev.getJS) ||
  (next.setf.isSome && next.setJS ≠ prev.setJS) ||
  (next.enumerable?.isSome && next.enumerable? ≠ prev.enumerable?) ||
  (next.configurable?.isSome && next.configurable? ≠ prev.configurable?)

/-! ## Memoized-getter evaluation (memo.ts with helper/util.ts)

Operational model of `MemoHandler.get`/`memoize` with the
`createUnownedMemo` of `helper/util.ts`, for reads performed outside
any solid-js owner.  In that mode the closure returned by
`createUnownedMemo` never builds the native memo and evaluates the
bound getter directly on every invocation (`if (!getOwner()) return
(memo ? memo : f)()`), so the engine plays no part: the behaviour below
is fully determined by the repository's source. -/

/-- A getter body: a constant, or a read of a property of `this`
through the facade (the shape of `get x() { return this.x + 1 }` —
the surrounding arithmetic cannot influence control flow). -/
inductive GBody : Type
  | constV (v : Val)
  | selfRead (k : Key)
deriving DecidableEq, Repr

/-- A slot of the memo `Cache` during evaluation: the `null` sentinel,
the circular-fallback delegate `() => this.circular(t, k, f)` installed
by `memoize`, or the closure returned by `createUnownedMemo`. -/
inductive MemoEntry : Type
  | excludedE
  | delegate (k : Key)
  | unowned (g : GBody)
deriving DecidableEq, Repr

/-- Result of a facade read under `MemoHandler`: a value, a
`CircularGetterError` naming a property, or fuel exhaustion (the read
did not terminate within the given number of re-entrant steps). -/
inductive MRes : Type
  | ok (v : Val)
  | circErr (k : Key)
  | fuelOut
deriving DecidableEq, Repr

/-- `MemoHandler.circular` (memo.ts): the default fallback throws a
`CircularGetterError` whose message names the offending property. -/
def MemoHandler.circular (k : Key) : MRes := .circErr k

/-- `MemoHandler.get` (memo.ts), first-person evaluation with the
receiver being the facade and no ambient owner.  A `delegate` entry, if
ever read, invokes `MemoHandler.circular`; an `unowned` entry invokes
the raw getter (`createUnownedMemo`'s ownerless path); an absent entry
for a getter runs `memoize`: the delegate is stored, then — without the
getter having run — overwritten by the `createUnownedMemo` closure,
which is then invoked. -/
def MemoHandler.memoGet (getters : List (Key × GBody))
    (raws : List (Key × Val)) :
    Nat → List (Key × MemoEntry) → Key →
    MRes × List (Key × MemoEntry)
  | 0, cache, _ => (.fuelOut, cache)
  | n + 1, cache, k =>
      match alistFind? cache k with
      | some .excludedE =>
          (.ok ((alistFind? raws k).getD .undef), cache)
      | some (.delegate k') => (MemoHandler.circular k', cache)
      | some (.unowned g) =>
          match g with
          | .constV v => (.ok v, cache)
          | .selfRead k' => MemoHandler.memoGet getters raws n cache k'
      | none =>
          match alistFind? getters k with
          | none =>
              (.ok ((alistFind? raws k).getD .undef),
               alistSet cache k .excludedE)
          | some g =>
              let c₁ := alistSet cache k (.delegate k)
              let c₂ := alistSet c₁ k (.unowned g)
              match g with
              | .constV v => (.ok v, c₂)
              | .selfRead k' => MemoHandler.memoGet getters raws n c₂ k'

/-! ## Attachment layer (base.ts `TargetHandler`/`BaseHandler`, and the
`ProxyData` variant of the earlier data layer)

Raw objects and facades are identified by numbers; `nextId` supplies
the identity of each freshly constructed `Proxy`.  The `attached` map
is the out-of-band `#proxy` private field on the raw object: absent =
the field was never installed, `some none` = installed and later set to
`undefined` (detached), `some (some p)` = facade `p` attached. -/

structure WrapState : Type where
  nextId : Nat := 0
  attached : List (Nat × Option Nat) := []
deriving DecidableEq, Repr

namespace TargetHandler

/-- `TargetHandler.setProxy` (base.ts): updates the `#proxy` field when
present, installs it otherwise. -/
def setProxy (s : WrapState) (raw : Nat) (v : Option Nat) : WrapState :=
  { s with attached := alistSet s.attached raw v }

/-- `TargetHandler.is` (base.ts): the attached facade, or `undefined`
when the field is absent or cleared. -/
def attachedOf (s : WrapState) (raw : Nat) : Option Nat :=
  (alistFind? s.attached raw).bind id

end TargetHandler

namespace BaseHandler

/-- `BaseHandler.create` (base.ts): always constructs a fresh `Proxy`
for the object and attaches it via the `BaseHandler` constructor's
`TargetHandler.setProxy` call — there is no already-attached check. -/
def create (s : WrapState) (raw : Nat) : Nat × WrapState :=
  let p := s.nextId
  (p, { nextId := s.nextId + 1,
        attached := alistSet s.attached raw (some p) })

end BaseHandler

namespace ProxyData

/-- `ProxyData.create` (the earlier data layer): returns the attached
facade when one exists (`#proxy in obj && obj.#proxy`), otherwise
constructs and attaches a fresh one. -/
def create (s : WrapState) (raw : Nat) : Nat × WrapState :=
  match TargetHandler.attachedOf s raw with
  | some p => (p, s)
  | none =>
      let p := s.nextId
      (p, { nextId := s.nextId + 1,
            attached := alistSet s.attached raw (some p) })

/-- `ProxyData.dispose`: clears the raw object's `#proxy` field. -/
def dispose (s : WrapState) (raw : Nat) : WrapState :=
  { s with attached := alistSet s.attached raw none }

end ProxyData

/-! ## Reactive arrays (helper/array.ts)

`ReactiveArray` methods run their `Array.prototype` super-call with
`this` being the facade, so index writes, index deletions and the
explicit length write route through the `ReactiveArrayHandler` traps;
the whole body runs inside `batch`, which coalesces the notifications
raised within it into one propagation pass in which each cell fires
once.  An index write that grows a genuine `Array` target updates
`length` exotically, without any trap, so the final explicit length
write of a growing method compares equal and is silent — the reason
the resizing methods call `this.update()` themselves. -/

/-- `isArrayProp` (helper/array.ts): an index key or `"length"`. -/
def isArrayProp (k : Key) : Bool :=
  match k with
  | .idx _ => true
  | .str s => s = "length"
  | _ => false

/-- `ReactiveArrayHandler.update` (helper/array.ts): an index or length
update additionally fires the `$TRACK` aggregate cell, inside the same
batch; other keys fall through to the base behaviour.  Returns the
cells fired. -/
def ReactiveArrayHandler.update (store : Store) (k : Key) : List Key :=
  if isArrayProp k then firedOf store k ++ firedOf store Key.trackSym
  else firedOf store k

/-- The cells fired by the traps during an `Array.prototype` mutation
that turns element list `a` into `r` on the facade: one comparator-
guarded `defineProperty` per changed existing index, creation
(`SHAPE` then index) for new indices, deletion (index then `SHAPE`)
for removed indices, and the trailing explicit length write, which
only fires when the collection shrank (growth already updated the
length exotically). -/
def arrayTrapNotes (store : Store) (a r : List Val) : List Key :=
  ((List.range (max a.length r.length)).map (fun i =>
    match a.get? i, r.get? i with
    | some ov, some nv =>
        if ov ≠ nv then ReactiveArrayHandler.update store (.idx i) else []
    | none, some _ =>
        firedOf store Key.shape ++
        ReactiveArrayHandler.update store (.idx i)
    | some _, none =>
        ReactiveArrayHandler.update store (.idx i) ++
        firedOf store Key.shape
    | none, none => [])).flatten ++
  (if r.length < a.length
   then ReactiveArrayHandler.update store (.str "length") else [])

/-- One coalesced propagation pass: every cell notified inside a batch
wakes its dependents once, however many times it was fired. -/
def coalesce : List Key → List Key
  | [] => []
  | k :: rest => k :: coalesce (rest.filter (fun k' => k' ≠ k))
termination_by l => l.length
decreasing_by
  simp only [List.length_cons]
  exact Nat.lt_succ_of_le (List.length_filter_le _ _)

/-- `ReactiveArray.splice` (helper/array.ts): the `Array.prototype`
splice (ECMAScript clamping of `start` and `deleteCount`) runs on the
facade, then `this.update()` fires the length and aggregate cells if
anything was removed or inserted; everything inside one `batch`.
Returns removed elements, the new elements, and the delivered
propagation passes. -/
def ReactiveArray.splice (store : Store) (a : List Val)
    (start deleteCount : Int) (items : List Val) :
    (List Val × List Val) × List (List Key) :=
  let len : Int := a.length
  let astart : Nat := (if start < 0 then max (len + start) 0
                       else min start len).toNat
  let adc : Nat := (min (max deleteCount 0) (len - astart)).toNat
  let removed := (a.drop astart).take adc
  let r := a.take astart ++ items ++ a.drop (astart + adc)
  let raw := arrayTrapNotes store a r ++
    (if removed.length ≠ 0 || items.length ≠ 0
     then ReactiveArrayHandler.update store (.str "length") else [])
  ((removed, r), [coalesce raw])

/-- `ReactiveArray.reverse` (helper/array.ts): the super-call inside
one `batch`. -/
def ReactiveArray.reverse (store : Store) (a : List Val) :
    List Val × List (List Key) :=
  let r := a.reverse
  (r, [coalesce (arrayTrapNotes store a r)])

/-- `ReactiveArray.fill` (helper/array.ts): ECMAScript fill clamping,
inside one `batch`. -/
def ReactiveArray.fill (store : Store) (a : List Val) (v : Val)
    (start finish : Int) : List Val × List (List Key) :=
  let len : Int := a.length
  let s : Nat := (if start < 0 then max (len + start) 0
                  else min start len).toNat
  let e : Nat := (if finish < 0 then max (len + finish) 0
                  else min finish len).toNat
  let r := (List.range a.length).map (fun i =>
    if s ≤ i ∧ i < e then v else a.getD i .undef)
  (r, [coalesce (arrayTrapNotes store a r)])

/-- `ReactiveArray.sort` (helper/array.ts): the comparator-driven super
sort inside one `batch`; the sorted order is abstracted by the
rearrangement `perm` the sort realizes — only the notification shape
matters here. -/
def ReactiveArray.sortBy (store : Store) (a : List Val)
    (perm : List Val → List Val) : List Val × List (List Key) :=
  let r := perm a
  (r, [coalesce (arrayTrapNotes store a r)])

/-- `ReactiveArray.copyWithin` (helper/array.ts): inside one `batch`. -/
def ReactiveArray.copyWithin (store : Store) (a : List Val)
    (target start : Nat) : List Val × List (List Key) :=
  let seg := (a.drop start).take (a.length - target)
  let r := (a.take target ++ seg ++ a.drop (target + seg.length)).take
    a.length
  (r, [coalesce (arrayTrapNotes store a r)])

/-- `ReactiveArray.push` (helper/array.ts): super push (index
creations; the grown length is exotic and silent), then
`this.update()`, inside one `batch`. -/
def ReactiveArray.push (store : Store) (a : List Val)
    (items : List Val) : (Nat × List Val) × List (List Key) :=
  let r := a ++ items
  let raw := arrayTrapNotes store a r ++
    ReactiveArrayHandler.update store (.str "length")
  ((r.length, r), [coalesce raw])

/-- `ReactiveArray.unshift` (helper/array.ts). -/
def ReactiveArray.unshift (store : Store) (a : List Val)
    (items : List Val) : (Nat × List Val) × List (List Key) :=
  let r := items ++ a
  let raw := arrayTrapNotes store a r ++
    ReactiveArrayHandler.update store (.str "length")
  ((r.length, r), [coalesce raw])

/-- `ReactiveArray.pop` (helper/array.ts). -/
def ReactiveArray.pop (store : Store) (a : List Val) :
    (Option Val × List Val) × List (List Key) :=
  let r := a.dropLast
  let raw := arrayTrapNotes store a r ++
    ReactiveArrayHandler.update store (.str "length")
  ((a.getLast?, r), [coalesce raw])

/-- `ReactiveArray.shift` (helper/array.ts). -/
def ReactiveArray.shift (store : Store) (a : List Val) :
    (Option Val × List Val) × List (List Key) :=
  let r := a.drop 1
  let raw := arrayTrapNotes store a r ++
    ReactiveArrayHandler.update store (.str "length")
  ((a.head?, r), [coalesce raw])

/-! ## Cell life-cycle (reactive.ts `track` and `createForcer`)

The reference-count story of one store slot: `tr` is a successful
`track()` (create-or-reuse, `forcer.track()`, `count++`, and one
`onCleanup` registration), `cl g` runs one outstanding cleanup of
forcer generation `g` (`!--forcer.count && delete store[k]` — the
slot delete is unconditional on which forcer occupies it, exactly as
in the source). -/

structure CellLife : Type where
  counts : List Nat := []
  pending : List Nat := []
  slot : Option Nat := none
deriving DecidableEq, Repr

/-- Count of generation `g` (0 when the generation does not exist). -/
def genCount (l : List Nat) (g : Nat) : Nat := l.getD g 0

inductive CellEvt : Type
  | tr
  | cl (g : Nat)
deriving DecidableEq, Repr

/-- One transition of the slot's life cycle; `none` when the event is
not enabled (a cleanup with nothing left to run). -/
def cellStep (s : CellLife) : CellEvt → Option CellLife
  | .tr =>
      match s.slot with
      | some g =>
          some { counts := s.counts.set g (genCount s.counts g + 1),
                 pending := s.pending.set g (genCount s.pending g + 1),
                 slot := some g }
      | none =>
          some { counts := s.counts ++ [1],
                 pending := s.pending ++ [1],
                 slot := some s.counts.length }
  | .cl g =>
      if genCount s.pending g = 0 then none
      else
        let c' := genCount s.counts g - 1
        some { counts := s.counts.set g c',
               pending := s.pending.set g (genCount s.pending g - 1),
               slot := if c' = 0 then none else s.slot }

/-- Runs a sequence of life-cycle events. -/
def runCell (s : CellLife) : List CellEvt → Option CellLife
  | [] => some s
  | e :: rest =>
      match cellStep s e with
      | none => none
      | some s' => runCell s' rest

/-- The inductive invariant of the cell life cycle: for each forcer
generation, the reference count equals the number of outstanding
cleanups; the generation installed in the store slot has a positive
count, every other generation's count is zero, and an empty slot means
every count is zero. -/
def cellInv (s : CellLife) : Prop :=
  s.counts.length = s.pending.length ∧
  (∀ g, genCount s.counts g = genCount s.pending g) ∧
  (∀ g, s.slot = some g →
     0 < genCount s.counts g ∧
     ∀ g', g' ≠ g → genCount s.counts g' = 0) ∧
  (s.slot = none → ∀ g, genCount s.counts g = 0)

theorem alistFind?_alistSet {κ α : Type} [DecidableEq κ]
    (l : List (κ × α)) (k : κ)
    (a : α) : alistFind? (alistSet l k a) k = some a := by
  induction l with
  | nil => simp [alistSet, alistFind?]
  | cons hd tl ih =>
      obtain ⟨k', a'⟩ := hd
      by_cases h : k' = k
      · simp [alistSet, h, alistFind?]
      · simp [alistSet, h, alistFind?, ih]

theorem alistFind?_alistSet_ne {κ α : Type} [DecidableEq κ]
    (l : List (κ × α))
    (k k' : κ) (a : α) (h : k ≠ k') :
    alistFind? (alistSet l k a) k' = alistFind? l k' := by
  induction l with
  | nil => simp [alistSet, alistFind?, h]
  | cons hd tl ih =>
      obtain ⟨k₀, a₀⟩ := hd
      by_cases h₀ : k₀ = k
      · subst h₀
        simp [alistSet, alistFind?, h]
      · simp [alistSet, h₀, alistFind?, ih]

theorem update_eq (st : PState) (k : Key) :
    ReactiveHandler.update st k
      = ({ st with notes := st.notes ++ firedOf st.store k },
         cellLive st.store k) := by
  unfold ReactiveHandler.update firedOf cellLive
  rcases h : alistFind? st.store k with _ | slot
  · simp [h]
  · cases slot <;> simp [h]

theorem track_frame (st : PState) (k : Key) :
    (ReactiveHandler.track st k).1.obj = st.obj ∧
    (ReactiveHandler.track st k).1.notes = st.notes ∧
    (ReactiveHandler.track st k).1.listening = st.listening := by
  unfold ReactiveHandler.track
  rcases hl : st.listening
  · simp [hl]
  · rcases h : alistFind? st.store k with _ | slot
    · simp [h, hl]
    · cases slot <;> simp [h, hl]

theorem track_not_listening (st : PState) (k : Key)
    (h : st.listening = false) :
    ReactiveHandler.track st k = (st, false) := by
  unfold ReactiveHandler.track
  simp [h]

theorem defineProperty_frame (st : PState) (k : Key) (next : Desc) :
    (ReactiveHandler.defineProperty st k next).2.store = st.store ∧
    (ReactiveHandler.defineProperty st k next).2.deps = st.deps ∧
    (ReactiveHandler.defineProperty st k next).2.listening
      = st.listening := by
  unfold ReactiveHandler.defineProperty
  rcases hdef : reflectDefineProperty st.obj k next with _ | o'
  · simp
  · rcases hprev : st.obj.getOwn k with _ | p
    · simp [update_eq]
    · by_cases hc : compareDesc ReactiveHandler.compare next p
      · simp [hc]
      · simp [hc, update_eq]

/-- C1.  Read transparency, as amended: the tracking-only facade
(`ReactiveHandler`) returns exactly the default `Reflect.get` result of
the raw object, independent of the content of the store and of the
ambient reactive context — never a cached or alternate value; the list
facade (`ListHandler`) returns the same default result except when it
is a function, which is replaced by its batch-wrapping. -/
theorem C1_read_transparency (gev : Nat → Val → Val) (h : Heap)
    (fuel : Nat) (st st' : PState) (k : Key) (r : Val)
    (hobj : st'.obj = st.obj) :
    (ReactiveHandler.get gev h fuel st k r).1
      = reflectGet gev h fuel st.obj k r
  ∧ (ListHandler.get gev h fuel st k r).1
      = (reflectGet gev h fuel st.obj k r).map ListHandler.batchWrap
  ∧ (ReactiveHandler.get gev h fuel st' k r).1
      = (ReactiveHandler.get gev h fuel st k r).1 := by
  refine ⟨rfl, rfl, ?_⟩
  simp [ReactiveHandler.get, hobj]

/-- C1, counterexample to the claim as stated: on a `ListHandler`
facade, reading a function-valued property does not return what reading
it on the raw object returns — the facade substitutes the cached
batch-wrapper for the raw function. -/
theorem C1_counterexample :
    (ListHandler.get (fun _ _ => .undef) [] 1
        { obj := { props := [(Key.str "m", Desc.data (.fn 7) true true true)] } }
        (Key.str "m") (.obj 0)).1
      ≠ reflectGet (fun _ _ => .undef) [] 1
        { props := [(Key.str "m", Desc.data (.fn 7) true true true)] }
        (Key.str "m") (.obj 0)
  ∧ reflectGet (fun _ _ => .undef) [] 1
        { props := [(Key.str "m", Desc.data (.fn 7) true true true)] }
        (Key.str "m") (.obj 0) = some (Val.fn 7) := by
  constructor
  · decide
  · decide

/-- C1, witness: the amended read-transparency theorem applied at a
concrete facade state. -/
theorem C1_read_transparency_witness :
    (({ obj := { props := [] }, store := [(Key.str "a", CellSlot.forcer 1)] }
        : PState)).obj = ({ obj := { props := [] } } : PState).obj
  ∧ (ReactiveHandler.get (fun _ _ => .undef) [] 1
      ({ obj := { props := [] } } : PState) (Key.str "a") (.obj 0)).1
      = reflectGet (fun _ _ => .undef) [] 1
        ({ obj := { props := [] } } : PState).obj (Key.str "a") (.obj 0) :=
  ⟨by decide,
   (C1_read_transparency (fun _ _ => .undef) [] 1
      { obj := { props := [] } }
      { obj := { props := [] }, store := [(Key.str "a", CellSlot.forcer 1)] }
      (Key.str "a") (.obj 0) (by decide)).1⟩

/-- C3.  Delete semantics: deleting a key that is not an own key of the
backing object is a silent success — `true` is returned and neither the
object, the store, nor the notifications change (for the tracking
facade and the memo facade alike); any notification implies the key was
own; and a successful delete of an own key fires exactly the cell of
`k` (when live) and the structural `SHAPE` cell (when live), in that
order, and evicts the memo-cache entry. -/
theorem C3_delete_semantics (st : PState)
    (cache : List (Key × CacheSlot)) (k : Key) :
    (st.obj.hasOwn k = false →
       ReactiveHandler.deleteProperty st k = (true, st) ∧
       MemoHandler.deleteProperty st cache k = (true, st, cache)) ∧
    ((ReactiveHandler.deleteProperty st k).2.notes ≠ st.notes →
       st.obj.hasOwn k = true) ∧
    (st.obj.hasOwn k = true →
       (ReactiveHandler.deleteProperty st k).1 = true →
       (ReactiveHandler.deleteProperty st k).2.notes
         = st.notes ++ firedOf st.store k ++ firedOf st.store Key.shape ∧
       (MemoHandler.deleteProperty st cache k).2.2
         = alistRemove cache k) := by
  have hfreeR : st.obj.hasOwn k = false →
      ReactiveHandler.deleteProperty st k = (true, st) := by
    intro hown
    have hnone : st.obj.getOwn k = none := by
      unfold Obj.getOwn
      rcases hf : alistFind? st.obj.props k with _ | v
      · rfl
      · simp [Obj.hasOwn, hf] at hown
    unfold ReactiveHandler.deleteProperty reflectDeleteProperty
    simp [hnone, hown]
  refine ⟨?_, ?_, ?_⟩
  · intro hown
    refine ⟨hfreeR hown, ?_⟩
    unfold MemoHandler.deleteProperty
    rw [hfreeR hown]
    simp [hown]
  · intro hne
    rcases hown : st.obj.hasOwn k
    · exact absurd (by rw [hfreeR hown]) hne
    · rfl
  · intro hown hok
    rcases hdel : reflectDeleteProperty st.obj k with _ | o'
    · exfalso
      unfold ReactiveHandler.deleteProperty at hok
      rw [hdel] at hok
      simp at hok
    · have hR : ReactiveHandler.deleteProperty st k
          = (true,
             (ReactiveHandler.update
               ((ReactiveHandler.update { st with obj := o' } k).1)
               Key.shape).1) := by
        unfold ReactiveHandler.deleteProperty
        rw [hdel]
        simp [hown]
      constructor
      · rw [hR]
        simp [update_eq, List.append_assoc]
      · unfold MemoHandler.deleteProperty
        rw [hR]
        simp [hown]

/-- C3, witness: deleting the own key `"a"` of a concrete facade with
live cells for `"a"` and `SHAPE` fires exactly those two cells. -/
theorem C3_delete_semantics_witness :
    (ReactiveHandler.deleteProperty
        { obj := { props := [(Key.str "a", Desc.data (.num 1) true true true)] },
          store := [(Key.str "a", CellSlot.forcer 1),
                    (Key.shape, CellSlot.forcer 2)] }
        (Key.str "a")).2.notes
      = [Key.str "a", Key.shape] := by
  have h := (C3_delete_semantics
    { obj := { props := [(Key.str "a", Desc.data (.num 1) true true true)] },
      store := [(Key.str "a", CellSlot.forcer 1),
                (Key.shape, CellSlot.forcer 2)] }
    [(Key.str "a", CacheSlot.excludedC)] (Key.str "a")).2.2
    (by decide) (by decide)
  exact h.1.trans (by decide)

set_option maxHeartbeats 1000000 in
theorem compareDesc_eq_not_differs (cmp : Val → Val → Bool)
    (next prev : Desc) :
    compareDesc cmp next prev = !descDiffersSpec cmp next prev := by
  unfold compareDesc descDiffersSpec
  rcases next with ⟨v, w, g, s, e, c⟩
  rcases v <;> rcases w <;> rcases g <;> rcases s <;> rcases e <;>
    rcases c <;>
    simp [Desc.getJS, Desc.setJS, Bool.not_or, Bool.and_assoc, eq_comm]

/-- C4.  Write/define policy: a successful `defineProperty` through the
facade installs the default mutation, never allocates a store cell, and
fires — against the cells that exist — the `SHAPE` cell then the cell
of `k` when the key was previously absent, and the cell of `k` alone
exactly when the new descriptor differs from the previous one in some
attribute present in it, value compared by the pluggable comparator
(`descDiffersSpec`, the specification's wording); and a plain write to
an existing own writable data property (routed by the `set` trap
through `Reflect.set` into the `defineProperty` trap) notifies `k`'s
existing cell exactly when the written value differs under the
comparator, touching neither the store nor the ambient dependency
set. -/
theorem C4_write_define_policy :
    (∀ (st : PState) (k : Key) (next : Desc) (o' : Obj),
       reflectDefineProperty st.obj k next = some o' →
       (ReactiveHandler.defineProperty st k next).1 = true ∧
       (ReactiveHandler.defineProperty st k next).2.obj = o' ∧
       (ReactiveHandler.defineProperty st k next).2.store = st.store ∧
       (ReactiveHandler.defineProperty st k next).2.notes
         = st.notes ++
           (match st.obj.getOwn k with
            | none => firedOf st.store Key.shape ++ firedOf st.store k
            | some p =>
                if descDiffersSpec ReactiveHandler.compare next p
                then firedOf st.store k else []))
  ∧ (∀ (sev : Nat → Val → Obj → Obj) (h : Heap) (fuel : Nat)
       (st : PState) (k : Key) (v : Val) (p : Desc),
       st.obj.getOwn k = some p →
       p.isAccessor = false →
       p.writable? = some true →
       (ReactiveHandler.set sev h (fuel + 1) st k v).2.notes
         = st.notes ++
           (if ReactiveHandler.compare v (p.value?.getD .undef)
            then [] else firedOf st.store k) ∧
       (ReactiveHandler.set sev h (fuel + 1) st k v).2.store = st.store ∧
       (ReactiveHandler.set sev h (fuel + 1) st k v).2.deps = st.deps) := by
  constructor
  · intro st k next o' hdef
    unfold ReactiveHandler.defineProperty
    rw [hdef]
    rcases hprev : st.obj.getOwn k with _ | p
    · simp [update_eq, List.append_assoc]
    · rcases hd : descDiffersSpec ReactiveHandler.compare next p
      · simp [update_eq, compareDesc_eq_not_differs, hd]
      · simp [update_eq, compareDesc_eq_not_differs, hd]
  · intro sev h fuel st k v p hp hA hW
    have hg : p.getf = none := by
      rcases hx : p.getf with _ | g
      · rfl
      · unfold Desc.isAccessor at hA
        rw [hx] at hA
        simp at hA
    have hs : p.setf = none := by
      rcases hx : p.setf with _ | s'
      · rfl
      · unfold Desc.isAccessor at hA
        rw [hx] at hA
        simp at hA
    have hchain : chainDesc h (fuel + 1)
        ({ st with listening := false } : PState).obj k = some p := by
      unfold chainDesc
      rw [show ({ st with listening := false } : PState).obj.getOwn k
            = some p from hp]
    have hp' : ({ st with listening := false } : PState).obj.getOwn k
        = some p := hp
    have hvalid :
        (p.configurable? = some true ||
          Desc.validNonConfigurable { value? := some v } p) = true := by
      rcases hc : p.configurable? with _ | b
      · simp [Desc.validNonConfigurable, Desc.isData, Desc.isAccessor,
              hW, hg, hs, hc]
      · cases b
        · simp [Desc.validNonConfigurable, Desc.isData, Desc.isAccessor,
                hW, hg, hs, hc]
        · simp
    have hcmp : compareDesc ReactiveHandler.compare
        { value? := some v } p
        = ReactiveHandler.compare v (p.value?.getD .undef) := by
      unfold compareDesc
      simp
    unfold ReactiveHandler.set reflectSet
      ReactiveHandler.getOwnPropertyDescriptor ReactiveHandler.defineProperty
      reflectDefineProperty
    rw [track_not_listening { st with listening := false } k rfl]
    rw [hchain]
    simp only [hp', hA, hW, hvalid, hcmp, Bool.false_eq_true,
      reduceCtorEq, if_false, if_true, reduceIte]
    rcases hval : ReactiveHandler.compare v (p.value?.getD .undef)
    · simp [hval, update_eq]
    · simp [hval, update_eq]

/-- C4, witness: redefining the concrete own data property `"a"` from
`1` to `2` on a facade with a live cell for `"a"` fires exactly that
cell, and a same-value write fires nothing. -/
theorem C4_write_define_policy_witness :
    (ReactiveHandler.defineProperty
        { obj := { props := [(Key.str "a", Desc.data (.num 1) true true true)] },
          store := [(Key.str "a", CellSlot.forcer 1)] }
        (Key.str "a") { value? := some (.num 2) }).2.notes
      = [Key.str "a"]
  ∧ (ReactiveHandler.set (fun _ _ o => o) [] 1
        { obj := { props := [(Key.str "a", Desc.data (.num 1) true true true)] },
          store := [(Key.str "a", CellSlot.forcer 1)] }
        (Key.str "a") (.num 1)).2.notes = [] := by
  constructor
  · have h := (C4_write_define_policy.1
      { obj := { props := [(Key.str "a", Desc.data (.num 1) true true true)] },
        store := [(Key.str "a", CellSlot.forcer 1)] }
      (Key.str "a") { value? := some (.num 2) }
      { props := [(Key.str "a", Desc.data (.num 2) true true true)] }
      (by decide)).2.2.2
    exact h.trans (by decide)
  · have h := (C4_write_define_policy.2 (fun _ _ o => o) [] 0
      { obj := { props := [(Key.str "a", Desc.data (.num 1) true true true)] },
        store := [(Key.str "a", CellSlot.forcer 1)] }
      (Key.str "a") (.num 1) (Desc.data (.num 1) true true true)
      (by decide) (by decide) (by decide)).1
    exact h.trans (by decide)

theorem protoLoop_spec (ks : List Key) (acc : PState) :
    (ReactiveHandler.protoLoop ks acc).notes
      = acc.notes ++
        firedAll acc.store (ks.filter (fun k => !acc.obj.hasOwn k))
  ∧ (ReactiveHandler.protoLoop ks acc).obj = acc.obj
  ∧ (ReactiveHandler.protoLoop ks acc).store = acc.store := by
  induction ks generalizing acc with
  | nil => simp [ReactiveHandler.protoLoop, firedAll]
  | cons k ks ih =>
      unfold ReactiveHandler.protoLoop
      rcases hown : acc.obj.hasOwn k
      · have hstep : (if !false then (ReactiveHandler.update acc k).1
             else acc)
            = { acc with notes := acc.notes ++ firedOf acc.store k } := by
          simp [update_eq]
        rw [hstep]
        obtain ⟨ih₁, ih₂, ih₃⟩ :=
          ih { acc with notes := acc.notes ++ firedOf acc.store k }
        refine ⟨?_, ?_, ?_⟩
        · rw [ih₁]
          simp [firedAll, hown, List.append_assoc]
        · exact ih₂
        · exact ih₃
      · have hstep : (if !true then (ReactiveHandler.update acc k).1
             else acc) = acc := by simp
        rw [hstep]
        obtain ⟨ih₁, ih₂, ih₃⟩ := ih acc
        refine ⟨?_, ?_, ?_⟩
        · rw [ih₁]
          simp [firedAll, hown]
        · exact ih₂
        · exact ih₃

/-- C5.  Prototype-change frame: setting the prototype to a value
identical to the current one short-circuits with no notification and no
change, on the tracking facade and the memo facade alike; a change of
prototype on an extensible object installs the new prototype and fires,
in order, the `PROTO` cell, the `SHAPE` cell, and then the cell of
every store key that is not an own key of the backing object — the
cells of own keys are not fired by the loop. -/
theorem C5_prototype_change_frame (st : PState)
    (cache : List (Key × CacheSlot)) (p : Option Nat) :
    (st.obj.protoId = p →
       ReactiveHandler.setPrototypeOf st p = (true, st) ∧
       MemoHandler.setPrototypeOf st cache p = (true, st, cache)) ∧
    (st.obj.protoId ≠ p → st.obj.extensible = true →
       (ReactiveHandler.setPrototypeOf st p).1 = true ∧
       (ReactiveHandler.setPrototypeOf st p).2.obj
         = { st.obj with protoId := p } ∧
       (ReactiveHandler.setPrototypeOf st p).2.store = st.store ∧
       (ReactiveHandler.setPrototypeOf st p).2.notes
         = st.notes ++ firedOf st.store Key.proto
             ++ firedOf st.store Key.shape
             ++ firedAll st.store
                  ((alistKeys st.store).filter
                    (fun k => !st.obj.hasOwn k))) := by
  constructor
  · intro hp
    constructor
    · unfold ReactiveHandler.setPrototypeOf
      simp [hp]
    · unfold MemoHandler.setPrototypeOf
      simp [hp]
  · intro hp hext
    have href : reflectSetPrototypeOf st.obj p
        = (true, { st.obj with protoId := p }) := by
      unfold reflectSetPrototypeOf
      simp [hp, hext]
    unfold ReactiveHandler.setPrototypeOf
    rw [if_neg (by simp [hp])]
    simp only [href]
    have hmid :
        (ReactiveHandler.update
          ((ReactiveHandler.update
            { st with obj := { st.obj with protoId := p } } Key.proto).1)
          Key.shape).1
        = { st with obj := { st.obj with protoId := p },
                    notes := st.notes ++ firedOf st.store Key.proto
                      ++ firedOf st.store Key.shape } := by
      simp [update_eq, List.append_assoc]
    rw [hmid]
    obtain ⟨l₁, l₂, l₃⟩ := protoLoop_spec (alistKeys st.store)
      { st with obj := { st.obj with protoId := p },
                notes := st.notes ++ firedOf st.store Key.proto
                  ++ firedOf st.store Key.shape }
    refine ⟨by trivial, ?_, ?_, ?_⟩
    · exact l₂
    · exact l₃
    · rw [l₁]
      simp [List.append_assoc]
      rfl

/-- C5, witness: a concrete prototype change fires `PROTO`, `SHAPE`,
and the tracked non-own key `"b"` (twice for the internal keys, once
per batch pass after coalescing), but not the own key `"a"`. -/
theorem C5_prototype_change_frame_witness :
    (ReactiveHandler.setPrototypeOf
        { obj := { props := [(Key.str "a", Desc.data (.num 1) true true true)] },
          store := [(Key.proto, CellSlot.forcer 1),
                    (Key.shape, CellSlot.forcer 1),
                    (Key.str "a", CellSlot.forcer 2),
                    (Key.str "b", CellSlot.forcer 1)] }
        (some 5)).2.notes
      = [Key.proto, Key.shape, Key.proto, Key.shape, Key.str "b"] := by
  have h := (C5_prototype_change_frame
    { obj := { props := [(Key.str "a", Desc.data (.num 1) true true true)] },
      store := [(Key.proto, CellSlot.forcer 1),
                (Key.shape, CellSlot.forcer 1),
                (Key.str "a", CellSlot.forcer 2),
                (Key.str "b", CellSlot.forcer 1)] }
    [] (some 5)).2 (by decide) (by decide)
  exact h.2.2.2.trans (by decide)

theorem reflectSet_frame (sev : Nat → Val → Obj → Obj) (h : Heap)
    (fuel : Nat) (st : PState) (k : Key) (v : Val)
    (hL : st.listening = false) :
    (reflectSet sev h fuel st k v).2.deps = st.deps ∧
    (reflectSet sev h fuel st k v).2.listening = false := by
  have hgopd : ReactiveHandler.getOwnPropertyDescriptor st k
      = (st.obj.getOwn k, st) := by
    unfold ReactiveHandler.getOwnPropertyDescriptor
    rw [track_not_listening st k hL]
  unfold reflectSet
  simp only [hgopd]
  split
  · exact ⟨rfl, hL⟩
  · split
    · split
      · exact ⟨rfl, hL⟩
      · exact ⟨rfl, hL⟩
    · split
      · exact ⟨rfl, hL⟩
      · split
        · split
          · exact ⟨rfl, hL⟩
          · split
            · exact ⟨rfl, hL⟩
            · refine ⟨(defineProperty_frame st k _).2.1, ?_⟩
              rw [(defineProperty_frame st k _).2.2]
              exact hL
        · refine ⟨(defineProperty_frame st k _).2.1, ?_⟩
          rw [(defineProperty_frame st k _).2.2]
          exact hL

/-- C10.  A property write through the facade never registers a
dependency: the `set` trap runs `Reflect.set` under `untrack`, so the
ambient computation's dependency set is unchanged by the write (and the
listener itself is restored), for every state, key and value —
including the inner `getOwnPropertyDescriptor` trap call that
`Reflect.set` performs on the receiver. -/
theorem C10_write_registers_no_dependency (sev : Nat → Val → Obj → Obj)
    (h : Heap) (fuel : Nat) (st : PState) (k : Key) (v : Val) :
    (ReactiveHandler.set sev h fuel st k v).2.deps = st.deps ∧
    (ReactiveHandler.set sev h fuel st k v).2.listening
      = st.listening := by
  unfold ReactiveHandler.set
  obtain ⟨h1, _⟩ :=
    reflectSet_frame sev h fuel { st with listening := false } k v rfl
  exact ⟨h1, rfl⟩

/-- C8.  Cell creation on read: whenever a computation is listening and
the store does not hold the `null` exclusion sentinel for `k`, a read
of `k` through the facade leaves a live cell for `k` in the store
(freshly created with reference count 1 on first access), and the
ambient computation is registered on it (`k` is prepended to its
dependency list).  This holds for every key the `get` trap tracks; in
particular for every non-excluded data-property key. -/
theorem C8_cell_creation_on_read (gev : Nat → Val → Val) (h : Heap)
    (fuel : Nat) (st : PState) (k : Key) (r : Val)
    (hL : st.listening = true)
    (hEx : alistFind? st.store k ≠ some CellSlot.excluded) :
    (∃ c, alistFind? ((ReactiveHandler.get gev h fuel st k r).2).store k
        = some (.forcer c)) ∧
    (alistFind? st.store k = none →
       alistFind? ((ReactiveHandler.get gev h fuel st k r).2).store k
         = some (.forcer 1)) ∧
    ((ReactiveHandler.get gev h fuel st k r).2).deps = k :: st.deps := by
  unfold ReactiveHandler.get ReactiveHandler.track
  rcases hs : alistFind? st.store k with _ | slot
  · simp [hL, hs, alistFind?_alistSet]
  · cases slot
    · exact absurd hs hEx
    · simp [hL, hs, alistFind?_alistSet]

/-- C8, witness: a first read of key `"a"` in a listening context
creates the cell with reference count 1 and registers the dependency. -/
theorem C8_cell_creation_on_read_witness :
    alistFind? ((ReactiveHandler.get (fun _ _ => .undef) [] 1
        { obj := { props := [] }, listening := true }
        (Key.str "a") (.obj 0)).2).store (Key.str "a")
      = some (CellSlot.forcer 1)
  ∧ ((ReactiveHandler.get (fun _ _ => .undef) [] 1
        { obj := { props := [] }, listening := true }
        (Key.str "a") (.obj 0)).2).deps = [Key.str "a"] := by
  have h := C8_cell_creation_on_read (fun _ _ => .undef) [] 1
    { obj := { props := [] }, listening := true }
    (Key.str "a") (.obj 0) (by decide) (by decide)
  exact ⟨h.2.1 (by decide), h.2.2⟩

theorem memoGet_unowned_selfRead (x : Key) :
    ∀ (n : Nat) (cache : List (Key × MemoEntry)),
      alistFind? cache x = some (MemoEntry.unowned (GBody.selfRead x)) →
      (MemoHandler.memoGet [(x, GBody.selfRead x)] [] n cache x).1
        = MRes.fuelOut := by
  intro n
  induction n with
  | zero => intro cache _; rfl
  | succ n ih =>
      intro cache hc
      unfold MemoHandler.memoGet
      rw [hc]
      exact ih cache hc

/-- C2.  The claim fails on the code: a first read of the
self-referential getter `get x() { return this.x ... }` on a
`MemoHandler` facade does not throw `CircularGetterError` — `memoize`
overwrites the circular-fallback delegate with the `createUnownedMemo`
closure before the getter can start evaluating, and (outside any
owner) that closure invokes the raw getter afresh on every re-entrant
read, so the read recurses unboundedly: for every amount of fuel the
evaluation is still running, and in particular `MemoHandler.circular`
is never reached. -/
theorem C2_first_read_diverges (fuel : Nat) :
    (MemoHandler.memoGet [(Key.str "x", GBody.selfRead (Key.str "x"))]
      [] fuel [] (Key.str "x")).1 = MRes.fuelOut := by
  cases fuel with
  | zero => rfl
  | succ n =>
      have hstep :
          MemoHandler.memoGet [(Key.str "x", GBody.selfRead (Key.str "x"))]
            [] (n + 1) [] (Key.str "x")
          = MemoHandler.memoGet
              [(Key.str "x", GBody.selfRead (Key.str "x"))] [] n
              [(Key.str "x", MemoEntry.unowned (GBody.selfRead (Key.str "x")))]
              (Key.str "x") := by
        conv_lhs => unfold MemoHandler.memoGet
        simp [alistFind?, alistSet]
      rw [hstep]
      exact memoGet_unowned_selfRead (Key.str "x") n _ (by decide)

/-- C6, counterexample to the claim as stated: `BaseHandler.create` —
the wrap entry point of the current base layer — does not return the
existing facade of an already-wrapped object: wrapping raw object `0`
twice yields a second facade distinct by identity from the first, even
though the first was still attached. -/
theorem C6_counterexample :
    TargetHandler.attachedOf (BaseHandler.create ({} : WrapState) 0).2 0
      = some (BaseHandler.create ({} : WrapState) 0).1
  ∧ (BaseHandler.create (BaseHandler.create ({} : WrapState) 0).2 0).1
      ≠ (BaseHandler.create ({} : WrapState) 0).1 := by
  constructor
  · decide
  · decide

/-- C6, as amended: the `ProxyData.create` variant is idempotent —
wrapping an object whose `#proxy` field holds a facade returns that
facade and changes nothing — and after `ProxyData.dispose` a subsequent
wrap creates a fresh facade distinct by identity from every facade
created before (in particular from the disposed one); the current
`BaseHandler.create`, by contrast, always creates a fresh facade,
distinct by identity from every earlier one, re-attaching it. -/
theorem C6_wrap_idempotence_and_detach :
    (∀ (s : WrapState) (raw p : Nat),
       TargetHandler.attachedOf s raw = some p →
       ProxyData.create s raw = (p, s)) ∧
    (∀ (s : WrapState) (raw pOld : Nat),
       pOld < s.nextId →
       (ProxyData.create (ProxyData.dispose s raw) raw).1 ≠ pOld) ∧
    (∀ (s : WrapState) (raw pOld : Nat),
       pOld < s.nextId →
       (BaseHandler.create s raw).1 ≠ pOld) := by
  refine ⟨?_, ?_, ?_⟩
  · intro s raw p hp
    unfold ProxyData.create
    rw [hp]
  · intro s raw pOld hlt
    have hfresh : (ProxyData.create (ProxyData.dispose s raw) raw).1
        = s.nextId := by
      unfold ProxyData.create ProxyData.dispose TargetHandler.attachedOf
      simp [alistFind?_alistSet]
    rw [hfresh]
    omega
  · intro s raw pOld hlt
    unfold BaseHandler.create
    simp only []
    omega

/-- C6, witness: wrapping raw object `0` twice through
`ProxyData.create` returns the same facade, and wrapping again after
dispose returns a facade different from the disposed one. -/
theorem C6_wrap_idempotence_and_detach_witness :
    ProxyData.create (ProxyData.create ({} : WrapState) 0).2 0
      = (0, (ProxyData.create ({} : WrapState) 0).2)
  ∧ (ProxyData.create
       (ProxyData.dispose (ProxyData.create ({} : WrapState) 0).2 0) 0).1
      ≠ 0 := by
  constructor
  · exact (C6_wrap_idempotence_and_detach.1
      (ProxyData.create ({} : WrapState) 0).2 0 0 (by decide))
  · exact (C6_wrap_idempotence_and_detach.2.1
      (ProxyData.create ({} : WrapState) 0).2 0 0 (by decide))

theorem genCount_set (l : List Nat) (i j x : Nat) :
    genCount (l.set i x) j
      = if i = j ∧ i < l.length then x else genCount l j := by
  induction l generalizing i j with
  | nil => simp [genCount]
  | cons a l ih =>
      cases i with
      | zero => cases j <;> simp [genCount, List.set]
      | succ i =>
          cases j with
          | zero => simp [genCount, List.set]
          | succ j =>
              simpa [genCount, List.set, Nat.succ_lt_succ_iff] using ih i j

theorem genCount_append_one (l : List Nat) (x g : Nat) :
    genCount (l ++ [x]) g = if g = l.length then x else genCount l g := by
  induction l generalizing g with
  | nil => cases g <;> simp [genCount]
  | cons a l ih =>
      cases g with
      | zero => simp [genCount]
      | succ g => simpa [genCount] using ih g

theorem lt_length_of_genCount_pos (l : List Nat) (g : Nat)
    (h : 0 < genCount l g) : g < l.length := by
  by_contra hge
  rw [genCount, List.getD_eq_default _ _ (Nat.le_of_not_lt hge)] at h
  exact Nat.lt_irrefl 0 h

theorem cellStep_inv (s s' : CellLife) (e : CellEvt)
    (hinv : cellInv s) (hstep : cellStep s e = some s') :
    cellInv s' := by
  obtain ⟨h1, h2, h3, h4⟩ := hinv
  cases e with
  | tr =>
      cases hslot : s.slot with
      | some g =>
          rw [cellStep, hslot] at hstep
          obtain ⟨hpos, hzero⟩ := h3 g hslot
          have hgc : g < s.counts.length := lt_length_of_genCount_pos _ _ hpos
          have hgp : g < s.pending.length := h1 ▸ hgc
          cases hstep
          refine ⟨by simp [h1], ?_, ?_, ?_⟩
          · intro g'
            simp only [genCount_set, hgc, hgp, h1]
            by_cases hg' : g = g' <;> simp [hg', h2 g']
          · intro g' hg'
            simp only [Option.some.injEq] at hg'
            subst hg'
            constructor
            · simp [genCount_set, hgc]
            · intro g'' hg''
              simp [genCount_set, Ne.symm hg'', hzero g'' hg'']
          · intro hcon
            cases hcon
      | none =>
          rw [cellStep, hslot] at hstep
          cases hstep
          refine ⟨by simp [h1], ?_, ?_, ?_⟩
          · intro g'
            simp [genCount_append_one, h1, h2 g']
          · intro g' hg'
            simp only [Option.some.injEq] at hg'
            subst hg'
            constructor
            · simp [genCount_append_one]
            · intro g'' hg''
              rw [genCount_append_one]
              simp [hg'', h4 hslot g'']
          · intro hcon
            cases hcon
  | cl g =>
      rw [cellStep] at hstep
      split at hstep
      · cases hstep
      · rename_i hpfree
        have hcpos : 0 < genCount s.counts g := by
          rw [h2 g]
          exact Nat.pos_of_ne_zero hpfree
        have hslot : s.slot = some g := by
          cases hslot : s.slot with
          | none => exact absurd (h4 hslot g) (Nat.pos_iff_ne_zero.mp hcpos)
          | some g' =>
              by_cases hgg : g = g'
              · rw [hgg]
              · exact absurd ((h3 g' hslot).2 g hgg)
                  (Nat.pos_iff_ne_zero.mp hcpos)
        have hgc : g < s.counts.length := lt_length_of_genCount_pos _ _ hcpos
        have hgp : g < s.pending.length := h1 ▸ hgc
        cases hstep
        refine ⟨by simp [h1], ?_, ?_, ?_⟩
        · intro g'
          simp only [genCount_set, hgc, hgp, h1]
          by_cases hg' : g = g' <;> simp [hg', h2, h2 g']
        · intro g' hg'
          have hne : ¬(genCount s.counts g - 1 = 0) := by
            by_contra hz
            rw [if_pos hz] at hg'
            cases hg'
          rw [if_neg hne] at hg'
          rw [hslot] at hg'
          simp only [Option.some.injEq] at hg'
          subst hg'
          constructor
          · rw [genCount_set, if_pos ⟨rfl, hgc⟩]
            omega
          · intro g'' hg''
            rw [genCount_set,
              if_neg (fun hcon => hg'' hcon.1.symm)]
            exact (h3 g hslot).2 g'' hg''
        · intro hnone g'
          by_cases hg' : g = g'
          · subst hg'
            rw [genCount_set, if_pos ⟨rfl, hgc⟩]
            by_cases hz : genCount s.counts g - 1 = 0
            · exact hz
            · rw [if_neg hz, hslot] at hnone
              cases hnone
          · rw [genCount_set, if_neg (fun hcon => hg' hcon.1)]
            exact (h3 g hslot).2 g' (fun hh => hg' hh.symm)

theorem runCell_inv (evts : List CellEvt) :
    ∀ (s s' : CellLife), cellInv s → runCell s evts = some s' →
      cellInv s' := by
  induction evts with
  | nil =>
      intro s s' hinv hrun
      rw [runCell] at hrun
      cases hrun
      exact hinv
  | cons e rest ih =>
      intro s s' hinv hrun
      rw [runCell] at hrun
      rcases hstep : cellStep s e with _ | s₁
      · rw [hstep] at hrun
        cases hrun
      · rw [hstep] at hrun
        exact ih s₁ s' (cellStep_inv s s₁ e hinv hstep) hrun

/-- C9.  Store-eviction invariant: along every reachable life-cycle of
a store slot, the installed forcer's reference count equals its number
of outstanding cleanups and is positive; an absent slot means every
count and every outstanding-cleanup tally is zero (nothing is retained
after the last observer's cleanup); the slot is evicted by a step
exactly when that step is a cleanup of the installed forcer bringing
its count from 1 to 0; and a successful track increments both the
count and the outstanding-cleanup tally by one. -/
theorem C9_store_eviction_invariant :
    ∀ (evts : List CellEvt) (s : CellLife),
      runCell {} evts = some s →
      ((∀ g, s.slot = some g →
          genCount s.counts g = genCount s.pending g ∧
          0 < genCount s.counts g) ∧
       (s.slot = none →
          ∀ g, genCount s.counts g = 0 ∧ genCount s.pending g = 0) ∧
       (∀ (e : CellEvt) (s' : CellLife), cellStep s e = some s' →
          ((s.slot ≠ none ∧ s'.slot = none) ↔
            ∃ g, e = .cl g ∧ s.slot = some g ∧
              genCount s.counts g = 1)) ∧
       (∀ (g : Nat) (s' : CellLife), s.slot = some g →
          cellStep s .tr = some s' →
          genCount s'.counts g = genCount s.counts g + 1 ∧
          genCount s'.pending g = genCount s.pending g + 1)) := by
  intro evts s hrun
  have hinv : cellInv s := by
    refine runCell_inv evts {} s ⟨rfl, fun g => rfl, ?_, ?_⟩ hrun
    · intro g hg
      cases hg
    · intro _ g
      simp [genCount]
  obtain ⟨h1, h2, h3, h4⟩ := hinv
  refine ⟨?_, ?_, ?_, ?_⟩
  · intro g hg
    exact ⟨h2 g, (h3 g hg).1⟩
  · intro hnone g
    exact ⟨h4 hnone g, (h2 g).symm.trans (h4 hnone g)⟩
  · intro e s' hstep
    constructor
    · rintro ⟨hs, hs'⟩
      cases e with
      | tr =>
          exfalso
          cases hslot : s.slot with
          | none => exact hs hslot
          | some g =>
              rw [cellStep, hslot] at hstep
              cases hstep
              cases hs'
      | cl g =>
          rw [cellStep] at hstep
          split at hstep
          · cases hstep
          · rename_i hpfree
            have hcpos : 0 < genCount s.counts g := by
              rw [h2 g]
              exact Nat.pos_of_ne_zero hpfree
            have hslot : s.slot = some g := by
              cases hslot : s.slot with
              | none =>
                  exact absurd (h4 hslot g)
                    (Nat.pos_iff_ne_zero.mp hcpos)
              | some g' =>
                  by_cases hgg : g = g'
                  · rw [hgg]
                  · exact absurd ((h3 g' hslot).2 g hgg)
                      (Nat.pos_iff_ne_zero.mp hcpos)
            refine ⟨g, rfl, hslot, ?_⟩
            cases hstep
            by_cases hz : genCount s.counts g - 1 = 0
            · omega
            · rw [if_neg hz, hslot] at hs'
              cases hs'
    · rintro ⟨g, rfl, hslot, hone⟩
      have hpone : genCount s.pending g = 1 := (h2 g).symm.trans hone
      rw [cellStep] at hstep
      rw [if_neg (by rw [hpone]; exact one_ne_zero)] at hstep
      rw [hone] at hstep
      simp only [Nat.sub_self, if_pos] at hstep
      cases hstep
      exact ⟨by rw [hslot]; exact Option.some_ne_none g, rfl⟩
  · intro g s' hg hstep
    have hgc : g < s.counts.length :=
      lt_length_of_genCount_pos _ _ (h3 g hg).1
    have hgp : g < s.pending.length := h1 ▸ hgc
    rw [cellStep, hg] at hstep
    cases hstep
    constructor
    · rw [genCount_set, if_pos ⟨rfl, hgc⟩]
    · rw [genCount_set, if_pos ⟨rfl, hgp⟩]

/-- C9, witness: after two tracks and one cleanup the installed forcer
has count 1, and the second cleanup — the count returning to zero —
evicts the slot. -/
theorem C9_store_eviction_invariant_witness :
    (({ counts := [1], pending := [1], slot := some 0 } : CellLife).slot
        ≠ none) ∧
    (({ counts := [0], pending := [0], slot := none } : CellLife).slot
        = none) := by
  have h := C9_store_eviction_invariant
    [CellEvt.tr, CellEvt.tr, CellEvt.cl 0]
    { counts := [1], pending := [1], slot := some 0 } (by decide)
  exact (h.2.2.1 (CellEvt.cl 0)
    { counts := [0], pending := [0], slot := none } (by decide)).mpr
    ⟨0, rfl, rfl, by decide⟩

theorem coalesce_sound :
    ∀ (l : List Key), (coalesce l).Nodup ∧
      ∀ a, a ∈ coalesce l ↔ a ∈ l := by
  suffices h : ∀ (n : Nat) (l : List Key), l.length = n →
      (coalesce l).Nodup ∧ ∀ a, a ∈ coalesce l ↔ a ∈ l by
    exact fun l => h l.length l rfl
  intro n
  induction n using Nat.strong_induction_on with
  | _ n ih =>
      intro l hn
      cases l with
      | nil => simp [coalesce]
      | cons k rest =>
          rw [coalesce]
          have hlt : (rest.filter (fun k' => k' ≠ k)).length < n := by
            rw [← hn]
            simp only [List.length_cons]
            exact Nat.lt_succ_of_le (List.length_filter_le _ _)
          obtain ⟨hnd, hmem⟩ := ih _ hlt (rest.filter (fun k' => k' ≠ k)) rfl
          constructor
          · refine List.nodup_cons.mpr ⟨?_, hnd⟩
            intro hk
            have := (hmem k).mp hk
            simp at this
          · intro a
            by_cases ha : a = k
            · simp [ha]
            · rw [List.mem_cons, hmem a, List.mem_filter]
              simp [ha]

theorem coalesce_count_one (l : List Key) (a : Key) (h : a ∈ l) :
    (coalesce l).count a = 1 := by
  obtain ⟨hnd, hmem⟩ := coalesce_sound l
  have hmem' : a ∈ coalesce l := (hmem a).mpr h
  have hle : (coalesce l).count a ≤ 1 :=
    List.nodup_iff_count_le_one.mp hnd a
  have hpos : 0 < (coalesce l).count a := List.count_pos_iff.mpr hmem'
  omega

/-- C7, counterexample to the claim as stated: `splice(0, 2, 'a', 'b',
'c')` on `[1, 2, 3, 4]` does not leave the array in state
`['a', 'b', 'c', 4]` with length 4 — JavaScript splice removes two
elements and inserts three, leaving `['a', 'b', 'c', 3, 4]` of length
5. -/
theorem C7_counterexample :
    (ReactiveArray.splice [] [.num 1, .num 2, .num 3, .num 4] 0 2
        [.str "a", .str "b", .str "c"]).1.2
      ≠ [.str "a", .str "b", .str "c", .num 4]
  ∧ (ReactiveArray.splice [] [.num 1, .num 2, .num 3, .num 4] 0 2
        [.str "a", .str "b", .str "c"]).1.2.length ≠ 4 := by
  constructor
  · decide
  · decide

/-- C7, as amended: every multi-index mutating `ReactiveArray` method —
reverse, fill, sort, copyWithin, push, unshift, pop, shift, splice —
delivers all its notifications in exactly one coalesced propagation
pass; a splice that removes or inserts anything fires the `$TRACK`
aggregate cell exactly once in that pass (given an observer of the
aggregate); and `splice(0, 2, 'a','b','c')` on `[1,2,3,4]` removes
`[1, 2]` and leaves `['a','b','c',3,4]`, of length 5. -/
theorem C7_batch_atomicity :
    (∀ store a start dc items,
       (ReactiveArray.splice store a start dc items).2.length = 1) ∧
    (∀ store a, (ReactiveArray.reverse store a).2.length = 1) ∧
    (∀ store a v s e, (ReactiveArray.fill store a v s e).2.length = 1) ∧
    (∀ store a perm, (ReactiveArray.sortBy store a perm).2.length = 1) ∧
    (∀ store a t s, (ReactiveArray.copyWithin store a t s).2.length = 1) ∧
    (∀ store a items, (ReactiveArray.push store a items).2.length = 1) ∧
    (∀ store a items,
       (ReactiveArray.unshift store a items).2.length = 1) ∧
    (∀ store a, (ReactiveArray.pop store a).2.length = 1) ∧
    (∀ store a, (ReactiveArray.shift store a).2.length = 1) ∧
    (∀ (store : Store) (a : List Val) (start dc : Int)
       (items : List Val),
       cellLive store Key.trackSym = true →
       (ReactiveArray.splice store a start dc items).1.1 ≠ [] ∨
         items ≠ [] →
       (((ReactiveArray.splice store a start dc items).2.headD
          []).count Key.trackSym) = 1) ∧
    ((ReactiveArray.splice [(Key.trackSym, CellSlot.forcer 1)]
        [.num 1, .num 2, .num 3, .num 4] 0 2
        [.str "a", .str "b", .str "c"]).1
      = ([.num 1, .num 2],
         [.str "a", .str "b", .str "c", .num 3, .num 4])) := by
  refine ⟨fun _ _ _ _ _ => rfl, fun _ _ => rfl, fun _ _ _ _ _ => rfl,
    fun _ _ _ => rfl, fun _ _ _ _ => rfl, fun _ _ _ => rfl,
    fun _ _ _ => rfl, fun _ _ => rfl, fun _ _ => rfl, ?_, by decide⟩
  intro store a start dc items hlive hne
  have hguard : (((a.drop
        ((if start < 0 then max ((a.length : Int) + start) 0
          else min start (a.length : Int)).toNat)).take
        ((min (max dc 0) ((a.length : Int) -
          ((if start < 0 then max ((a.length : Int) + start) 0
            else min start (a.length : Int)).toNat))).toNat)).length ≠ 0
      || items.length ≠ 0) = true := by
    rcases hne with hrem | hitems
    · have hrem' : ((a.drop
          ((if start < 0 then max ((a.length : Int) + start) 0
            else min start (a.length : Int)).toNat)).take
          ((min (max dc 0) ((a.length : Int) -
            ((if start < 0 then max ((a.length : Int) + start) 0
              else min start (a.length : Int)).toNat))).toNat)) ≠ [] :=
        hrem
      have : ((a.drop
          ((if start < 0 then max ((a.length : Int) + start) 0
            else min start (a.length : Int)).toNat)).take
          ((min (max dc 0) ((a.length : Int) -
            ((if start < 0 then max ((a.length : Int) + start) 0
              else min start (a.length : Int)).toNat))).toNat)).length
          ≠ 0 := by
        intro hz
        exact hrem' (List.length_eq_zero.mp hz)
      rw [Bool.or_eq_true]
      exact Or.inl (decide_eq_true this)
    · have : items.length ≠ 0 := by
        intro hz
        exact hitems (List.length_eq_zero.mp hz)
      rw [Bool.or_eq_true]
      exact Or.inr (decide_eq_true this)
  have hupd : Key.trackSym ∈
      ReactiveArrayHandler.update store (Key.str "length") := by
    unfold ReactiveArrayHandler.update isArrayProp
    simp only [if_pos]
    refine List.mem_append_right _ ?_
    rw [firedOf, if_pos hlive]
    exact List.mem_singleton.mpr rfl
  unfold ReactiveArray.splice
  simp only [hguard, if_true, List.headD_cons]
  exact coalesce_count_one _ _
    (List.mem_append_right _ (by simpa using hupd))

/-- C7, witness: the concrete splice of the claim, on a facade with an
aggregate observer, delivers exactly one `$TRACK` notification in its
single propagation pass. -/
theorem C7_batch_atomicity_witness :
    (((ReactiveArray.splice [(Key.trackSym, CellSlot.forcer 1)]
        [.num 1, .num 2, .num 3, .num 4] 0 2
        [.str "a", .str "b", .str "c"]).2.headD []).count Key.trackSym)
      = 1 := by
  exact C7_batch_atomicity.2.2.2.2.2.2.2.2.2.1
    [(Key.trackSym, CellSlot.forcer 1)]
    [.num 1, .num 2, .num 3, .num 4] 0 2
    [.str "a", .str "b", .str "c"] (by decide) (Or.inr (by decide))

end SolidModel
